import Mathlib

/-!
Verification of the grpc-pipe core: a shallow embedding of the
PipeHandler flow-control pipeline (packages/core/src/pipe/PipeHandler.ts),
the Deque used as its deferred-send queue (packages/core/src/pipe/Deque.ts),
and the GrpcPipeClient reconnect backoff state machine
(packages/client/src/GrpcPipeClient.ts), together with theorems settling
the specification claims about them.
-/

namespace GrpcPipe

/-!
## Deque (packages/core/src/pipe/Deque.ts)

The source stores a backing array `a` and a head index `h`; `push`
appends, `shift` reads `a[h++]` and compacts the backing array once the
head index exceeds 64 and more than half of the array is consumed.
-/

structure Deque (T : Type) where
  a : List T
  h : Nat
deriving Repr, DecidableEq

namespace Deque

def empty {T : Type} : Deque T := ⟨[], 0⟩

/-- Source: push(v) appends to the backing array. -/
def push {T : Type} (d : Deque T) (v : T) : Deque T := ⟨d.a ++ [v], d.h⟩

/-- Source: shift() returns undefined when the head index has reached
the end; otherwise it reads a[h], increments h, and compacts (slice from
h, reset h to 0) when h exceeds 64 and h doubled exceeds the array
length. -/
def shift {T : Type} (d : Deque T) : Option T × Deque T :=
  if hlt : d.h < d.a.length then
    let v := d.a.get ⟨d.h, hlt⟩
    let h1 := d.h + 1
    if 64 < h1 ∧ d.a.length < h1 * 2 then (some v, ⟨d.a.drop h1, 0⟩)
    else (some v, ⟨d.a, h1⟩)
  else (none, d)

/-- Source: length getter computes a.length - h. -/
def length {T : Type} (d : Deque T) : Nat := d.a.length - d.h

/-- Abstraction function: the logical FIFO contents of the deque. -/
def toList {T : Type} (d : Deque T) : List T := d.a.drop d.h

/-- Structural invariant: the head index never passes the end of the
backing array, so the JS subtraction a.length - h is non-negative. -/
def Wf {T : Type} (d : Deque T) : Prop := d.h ≤ d.a.length

end Deque

/-- A FIFO operation: push a value or shift one off. -/
inductive QOp (T : Type) where
  | push (v : T)
  | shift
deriving Repr, DecidableEq

/-- Run a sequence of operations on the deque, collecting the result of
every shift. -/
def runDeque {T : Type} : Deque T → List (QOp T) → Deque T × List (Option T)
  | d, [] => (d, [])
  | d, QOp.push v :: ops => runDeque (d.push v) ops
  | d, QOp.shift :: ops =>
      let r := d.shift
      let rest := runDeque r.2 ops
      (rest.1, r.1 :: rest.2)

/-- Reference model: the same operations on a plain list acting as a
FIFO queue (push appends at the tail, shift removes the head, shift of
an empty queue yields none). -/
def runList {T : Type} : List T → List (QOp T) → List T × List (Option T)
  | q, [] => (q, [])
  | q, QOp.push v :: ops => runList (q ++ [v]) ops
  | [], QOp.shift :: ops =>
      let rest := runList ([] : List T) ops
      (rest.1, none :: rest.2)
  | x :: xs, QOp.shift :: ops =>
      let rest := runList xs ops
      (rest.1, some x :: rest.2)

/-- Number of push operations in a sequence. -/
def countPush {T : Type} : List (QOp T) → Nat
  | [] => 0
  | QOp.push _ :: ops => countPush ops + 1
  | QOp.shift :: ops => countPush ops

/-- Number of successful (some) shift results. -/
def countSome {T : Type} : List (Option T) → Nat
  | [] => 0
  | some _ :: os => countSome os + 1
  | none :: os => countSome os

/-!
## PipeHandler flow control (packages/core/src/pipe/PipeHandler.ts)

The model keeps the handler fields that flow control reads and writes
(readyResolved, inFlight, postQueue, pumping) together with the
observable transport trace (the list of frames handed to
transport.send, in order). Payload encoding is abstracted: a message is
its type string plus an abstract payload value, since encoding never
affects gating or ordering. The deferred-send queue holds thunks in the
source; a thunk is determined by the message it closes over, so the
queue is modelled as a list of messages (the Deque itself is proved
FIFO-equivalent to a plain list separately). Asynchrony is modelled by
explicit events: transport callbacks, pump ticks scheduled by
setImmediate, and the microtask that completes a compress(...).then
chain. The JS microtask queue is FIFO and compress resolves without
suspending on external work, so pending compressed sends drain to the
transport in enqueue order.
-/

/-- A logical message: type string plus abstract payload. -/
structure Msg where
  t : String
  d : Nat
deriving Repr, DecidableEq

/-- Writable-buffer stats optionally reported by the Transport
(Transport.getWritableInfo). -/
structure WInfo where
  writableLength : Nat
  writableNeedDrain : Bool
deriving Repr, DecidableEq

/-- PipeHandler configuration, from PipeHandlerOptions as the
constructor stores it. -/
structure Cfg where
  maxInFlight : Option Nat
  releaseOn : List String
  backpressureThresholdBytes : Nat
  compressionEnabled : Bool
deriving Repr, DecidableEq

/-- JS truthiness of this.maxInFlight: defined and non-zero. -/
def Cfg.winOn (c : Cfg) : Bool :=
  match c.maxInFlight with
  | none => false
  | some n => decide (0 < n)

/-- The numeric window size read wherever this.maxInFlight is compared. -/
def Cfg.winCap (c : Cfg) : Nat := c.maxInFlight.getD 0

/-- PipeHandler mutable state plus the observable transport trace. -/
structure PH where
  readyResolved : Bool
  preReady : List Msg
  inFlight : Int
  postQueue : List Msg
  pumping : Bool
  winfo : Option WInfo
  sent : List Msg
  compressQueue : List Msg
deriving Repr, DecidableEq

/-- Fresh handler state after a constructor run that resolved readiness
(schema attached synchronously, or no schema at all). -/
def PH.init : PH := ⟨true, [], 0, [], false, none, [], []⟩

/-- Handler state during the window in which readiness is still
pending, used to model posts issued before the session is ready. -/
def PH.initUnready : PH := ⟨false, [], 0, [], false, none, [], []⟩

/-- Non-system check used by post and _sendNow: a string type that does
not start with the reserved system marker. -/
def nonSystem (t : String) : Bool := !(t.startsWith "system_")

/-- PipeHandler.isPressured: the transport signals writableNeedDrain,
or its pending bytes are at or above the configured threshold; false
when the transport exposes no writable info. -/
def isPressured (c : Cfg) (s : PH) : Bool :=
  match s.winfo with
  | none => false
  | some i =>
      i.writableNeedDrain || decide (c.backpressureThresholdBytes ≤ i.writableLength)

/-- First half of PipeHandler._sendNow: for a gated (window configured,
non-system) message, inFlight is incremented before the send attempt. -/
def sendInc (c : Cfg) (m : Msg) (s : PH) : PH :=
  if c.winOn && nonSystem m.t then { s with inFlight := s.inFlight + 1 } else s

/-- Second half of PipeHandler._sendNow, the try block: with compression
the frame is sent from a compress(...).then microtask (queued FIFO);
otherwise transport.send runs now, and if it throws synchronously
(sendOk = false) the catch rolls the gated increment back, floored at
zero. -/
def sendAttempt (c : Cfg) (sendOk : Bool) (m : Msg) (s : PH) : PH :=
  if c.compressionEnabled then
    { s with compressQueue := s.compressQueue ++ [m] }
  else if sendOk then
    { s with sent := s.sent ++ [m] }
  else if c.winOn && nonSystem m.t then
    { s with inFlight := max 0 (s.inFlight - 1) }
  else s

/-- PipeHandler._sendNow: increment (for gated messages) and then the
guarded encode-compress-send attempt. -/
def sendNow (c : Cfg) (sendOk : Bool) (m : Msg) (s : PH) : PH :=
  sendAttempt c sendOk m (sendInc c m s)

/-- PipeHandler.schedulePump up to its setImmediate call: the
re-entrancy guard on the pumping flag; the scheduled ticks themselves
are separate events. -/
def schedulePump (s : PH) : PH :=
  if s.pumping then s else { s with pumping := true }

/-- The tail of PipeHandler.post after an immediate send: schedule a
pump when the transport is pressured, sends are queued, and no pump is
active. -/
def postAfterSend (c : Cfg) (s : PH) : PH :=
  if isPressured c s && decide (0 < s.postQueue.length) && !s.pumping then
    schedulePump s
  else s

/-- PipeHandler.post. Before readiness the call defers itself via
ready.then, whose reaction queue is FIFO. Once ready: with the window
configured and full for a non-system message, the thunk is appended to
the deferred-send queue and a pump is scheduled; otherwise the message
is sent now, after which a pump is scheduled if the transport is
pressured and the queue is non-empty. -/
def post (c : Cfg) (sendOk : Bool) (m : Msg) (s : PH) : PH :=
  if !s.readyResolved then { s with preReady := s.preReady ++ [m] }
  else if c.winOn && nonSystem m.t && decide ((c.winCap : Int) ≤ s.inFlight) then
    schedulePump { s with postQueue := s.postQueue ++ [m] }
  else
    postAfterSend c (sendNow c sendOk m s)

/-- The loop of PipeHandler.pumpOnce over the current queue contents:
stop on an empty queue, on a full window, or (window off) on transport
pressure; otherwise shift the head thunk and run it. The thunk is
_sendNow, whose own catch swallows a synchronous send error, so the
loop's catch-break never fires and the pass continues. The oks oracle
gives each attempted transport.send its outcome. -/
def pumpAux (c : Cfg) : List Msg → List Bool → PH → PH
  | [], _, s => { s with postQueue := [] }
  | m :: rest, oks, s =>
    if c.winOn && decide ((c.winCap : Int) ≤ s.inFlight) then
      { s with postQueue := m :: rest }
    else if !c.winOn && isPressured c s then
      { s with postQueue := m :: rest }
    else
      pumpAux c rest oks.tail (sendNow c (oks.headD true) m s)

/-- PipeHandler.pumpOnce on the handler state. -/
def pumpOnce (c : Cfg) (oks : List Bool) (s : PH) : PH :=
  pumpAux c s.postQueue oks s

/-- One tick of the schedulePump loop: run pumpOnce, then re-arm via
setImmediate while the queue is non-empty, else clear the pumping
flag. -/
def tickRun (c : Cfg) (oks : List Bool) (s : PH) : PH :=
  if decide (0 < (pumpOnce c oks s).postQueue.length) then pumpOnce c oks s
  else { pumpOnce c oks s with pumping := false }

/-- The pump re-arm guard shared by emit and routeMessage: schedule a
pump when sends are queued and no pump is active. -/
def armIfQueued (s : PH) : PH :=
  if decide (0 < s.postQueue.length) && !s.pumping then schedulePump s else s

/-- The releaseOn path inside emit: with the window configured and the
received type in releaseOn, decrement inFlight (floored at zero) and
re-arm the pump if sends are queued. -/
def releasePath (c : Cfg) (t : String) (s : PH) : PH :=
  if c.winOn && c.releaseOn.contains t then
    armIfQueued { s with inFlight := max 0 (s.inFlight - 1) }
  else s

/-- Inbound path: the constructor's onMessage callback drops system_
types before routeMessage; emit then decodes (decodeOk = false models a
missing schema.receive entry or a decompress/parse throw, which aborts
emit and with it routeMessage, leaving the state unchanged); on success
the releaseOn decrement runs with its pump re-arm, and routeMessage
finally re-arms the pump if the queue is non-empty. -/
def recvMsg (c : Cfg) (decodeOk : Bool) (t : String) (s : PH) : PH :=
  if t.startsWith "system_" then s
  else if !decodeOk then s
  else armIfQueued (releasePath c t s)

/-- Drain of the pending compress(...).then microtasks, in FIFO order. -/
def flushCompress (s : PH) : PH :=
  { s with sent := s.sent ++ s.compressQueue, compressQueue := [] }

/-- The ready.then reactions run in FIFO order once the ready promise
resolves; each reaction re-enters post with the now-ready state. -/
def replayAux (c : Cfg) : List Bool → List Msg → PH → PH
  | _, [], s => s
  | oks, m :: rest, s => replayAux c oks.tail rest (post c (oks.headD true) m s)

/-- Readiness resolution (useSchema calling resolveReady): mark the
handler ready and run every queued ready.then reaction in order. -/
def resolveReplay (c : Cfg) (oks : List Bool) (s : PH) : PH :=
  replayAux c oks s.preReady { s with readyResolved := true, preReady := [] }

/-- External events driving a handler: an application post (with the
outcome of any synchronous transport.send it performs), a transport
message callback (with the decode outcome), a scheduled pump tick (with
one outcome per send the pass performs), the microtask drain of pending
compressed sends, a change of the transport's writable stats, and the
resolution of the ready promise. -/
inductive Ev where
  | post (m : Msg) (sendOk : Bool)
  | recv (t : String) (decodeOk : Bool)
  | tick (oks : List Bool)
  | flush
  | setW (w : Option WInfo)
  | ready (oks : List Bool)

/-- One event step. A tick only acts while the pumping flag is set,
since setImmediate ticks are scheduled only by schedulePump or by a
running tick. -/
def step (c : Cfg) (s : PH) : Ev → PH
  | .post m ok => post c ok m s
  | .recv t ok => recvMsg c ok t s
  | .tick oks => if s.pumping then tickRun c oks s else s
  | .flush => flushCompress s
  | .setW w => { s with winfo := w }
  | .ready oks => resolveReplay c oks s

/-- Run a sequence of events. -/
def run (c : Cfg) (s : PH) : List Ev → PH
  | [] => s
  | e :: es => run c (step c s e) es

/-- A trace of plain application posts whose sends all succeed. -/
def postsOf (ms : List Msg) : List Ev := ms.map (fun m => Ev.post m true)

/-- The in-flight window invariant: the counter stays between zero and
the configured window size. -/
def InvW (N : Nat) (s : PH) : Prop := 0 ≤ s.inFlight ∧ s.inFlight ≤ (N : Int)

/-- A concrete windowed configuration used to witness the window-bound
theorem: maxInFlight of one, releasing on the reply type, default
threshold, no compression. -/
def cfgWin1 : Cfg := ⟨some 1, ["reply"], 5242880, false⟩

/-- A concrete unwindowed configuration with compression enabled, used
to witness the ordering theorems. -/
def cfgPlainZip : Cfg := ⟨none, [], 5242880, true⟩

/-!
## Dispatcher pieces (PipeHandler constructor and process)
-/

/-- The concurrency bound handed to the fastq processing queue in the
PipeHandler constructor: Math.floor(os.cpus().length / 2) of the
reported core count, with no further adjustment. -/
def dispatcherConcurrency (cores : Nat) : Nat := cores / 2

/-- PipeHandler.process: run the handlers registered for the message
type in registration order, awaiting each; the loop has no try/catch,
so a rejection stops it. A handler is its id paired with whether it
throws; the result is the list of handlers actually invoked and whether
a rejection escaped process. -/
def processRun : List (Nat × Bool) → List Nat × Bool
  | [] => ([], false)
  | (i, thr) :: rest =>
    if thr then ([i], true)
    else
      let r := processRun rest
      (i :: r.1, r.2)

/-!
## Inbound decode observations (PipeHandler.emit)

For the silent-drop claim the payload is abstracted to its type plus
whether JSON.parse would succeed on it in fallback mode.
-/

/-- An inbound frame at observation level. -/
structure InMsg where
  t : String
  wellFormed : Bool
deriving Repr, DecidableEq

/-- What one emit call does that the application can observe. -/
structure EmitOut where
  listenerCalled : Bool
  dispatched : Bool
  exn : Bool
deriving Repr, DecidableEq

/-- PipeHandler.emit at observation level: with a schema, a type absent
from schema.receive returns early (dropped: no listener, no dispatch,
no exception); without a schema the payload goes through JSON.parse,
whose throw on malformed input escapes emit before the global listener
runs; a successfully decoded message reaches the global listener and
then the dispatch queue. -/
def emitRun (hasSchema : Bool) (receiveTypes : List String) (m : InMsg) : EmitOut :=
  if hasSchema then
    if receiveTypes.contains m.t then ⟨true, true, false⟩
    else ⟨false, false, false⟩
  else
    if m.wellFormed then ⟨true, true, false⟩
    else ⟨false, false, true⟩

/-!
## Reconnect backoff (packages/client/src/GrpcPipeClient.ts and the
client package variant)

Both variants keep reconnectBaseDelay, currentReconnectDelay (starting
at the base), a cap of 30000, and the same scheduleReconnect body.
-/

/-- Client reconnect state. -/
structure RC where
  base : Nat
  currentReconnectDelay : Nat
  shouldReconnect : Bool
  timerPending : Bool
deriving Repr, DecidableEq

/-- maxReconnectDelay in both client variants. -/
def maxReconnectDelay : Nat := 30000

/-- GrpcPipeClient.scheduleReconnect: bail out if reconnection is
disabled or a timer is already pending; otherwise double the stored
delay (capped at the maximum) and schedule the timer with that doubled
value. The second component is the delay actually scheduled. -/
def scheduleReconnect (r : RC) : RC × Option Nat :=
  if !r.shouldReconnect || r.timerPending then (r, none)
  else
    let d := min (r.currentReconnectDelay * 2) maxReconnectDelay
    ({ r with currentReconnectDelay := d, timerPending := true }, some d)

/-- The reconnect timer firing: the timeout handle is cleared before
connect() runs. -/
def timerFire (r : RC) : RC := { r with timerPending := false }

/-- The stream metadata handler on a successful connection: the stored
delay is reset to the base. -/
def onConnected (r : RC) : RC := { r with currentReconnectDelay := r.base }

/-- Constructor state: currentReconnectDelay starts at the base. -/
def RC.init (base : Nat) : RC := ⟨base, base, true, false⟩

/-- The delays scheduled by k consecutive connection failures, each
failure calling scheduleReconnect and each timer firing before the next
failure. -/
def failDelays (r : RC) : Nat → List Nat
  | 0 => []
  | k + 1 =>
    let p := scheduleReconnect r
    p.2.toList ++ failDelays (timerFire p.1) k

end GrpcPipe

namespace GrpcPipe

theorem Deque.toList_push {T : Type} (d : Deque T) (v : T) (hw : d.Wf) :
    (d.push v).toList = d.toList ++ [v] := by
  simp [Deque.push, Deque.toList, List.drop_append_of_le_length hw]

theorem Deque.wf_push {T : Type} (d : Deque T) (v : T) (hw : d.Wf) :
    (d.push v).Wf := by
  simp only [Deque.push, Deque.Wf, List.length_append, List.length_cons]
  exact le_trans hw (Nat.le_add_right _ _)

theorem Deque.shift_empty {T : Type} (d : Deque T)
    (he : d.toList = []) : d.shift = (none, d) := by
  have hlen : d.a.length ≤ d.h := List.drop_eq_nil_iff.mp he
  unfold Deque.shift
  rw [dif_neg]
  omega

theorem Deque.shift_cons {T : Type} (d : Deque T) (x : T) (xs : List T)
    (hc : d.toList = x :: xs) :
    (d.shift).1 = some x ∧ (d.shift).2.toList = xs ∧ (d.shift).2.Wf := by
  have hlt : d.h < d.a.length := by
    by_contra hge
    have h0 : d.a.drop d.h = [] := List.drop_eq_nil_iff.mpr (by omega)
    rw [Deque.toList, h0] at hc
    exact List.noConfusion hc
  rw [Deque.toList, List.drop_eq_getElem_cons hlt] at hc
  injection hc with hget htail
  unfold Deque.shift
  rw [dif_pos hlt]
  by_cases hcomp : 64 < d.h + 1 ∧ d.a.length < (d.h + 1) * 2
  · rw [if_pos hcomp]
    refine ⟨by simp [hget], ?_, ?_⟩
    · simp [Deque.toList, htail]
    · simp [Deque.Wf]
  · rw [if_neg hcomp]
    refine ⟨by simp [hget], ?_, ?_⟩
    · simpa [Deque.toList] using htail
    · simp only [Deque.Wf]
      omega

/-- Simulation: starting from any well-formed deque, the deque and the
plain FIFO list produce identical shift outputs, related final states,
and the final deque is well-formed. -/
theorem runDeque_sim {T : Type} (ops : List (QOp T)) :
    ∀ (d : Deque T), d.Wf →
      (runDeque d ops).2 = (runList d.toList ops).2 ∧
      (runDeque d ops).1.toList = (runList d.toList ops).1 ∧
      (runDeque d ops).1.Wf := by
  induction ops with
  | nil =>
    intro d hw
    simp only [runDeque, runList]
    exact ⟨trivial, trivial, hw⟩
  | cons op ops ih =>
    intro d hw
    cases op with
    | push v =>
      have hpw := Deque.wf_push d v hw
      have hpl := Deque.toList_push d v hw
      have ihd := ih (d.push v) hpw
      rw [hpl] at ihd
      simp only [runDeque, runList]
      exact ihd
    | shift =>
      cases hc : d.toList with
      | nil =>
        have hse := Deque.shift_empty d hc
        have ihd := ih d hw
        rw [hc] at ihd
        simp only [runDeque, hse, hc, runList]
        exact ⟨by rw [ihd.1], ihd.2.1, ihd.2.2⟩
      | cons x xs =>
        have hsc := Deque.shift_cons d x xs hc
        have ihd := ih (d.shift).2 hsc.2.2
        rw [hsc.2.1] at ihd
        simp only [runDeque, runList, hc]
        exact ⟨by rw [ihd.1, hsc.1], ihd.2.1, ihd.2.2⟩

/-- Conservation law for the list model: final length plus successful
shifts equals initial length plus pushes. -/
theorem runList_length {T : Type} (ops : List (QOp T)) :
    ∀ (q : List T),
      (runList q ops).1.length + countSome (runList q ops).2
        = q.length + countPush ops := by
  induction ops with
  | nil => intro q; simp [runList, countSome, countPush]
  | cons op ops ih =>
    intro q
    cases op with
    | push v =>
      simp only [runList, countPush]
      have := ih (q ++ [v])
      simp only [List.length_append, List.length_cons, List.length_nil] at this
      omega
    | shift =>
      cases q with
      | nil =>
        simp only [runList, countPush, countSome]
        have := ih ([] : List T)
        simpa using this
      | cons x xs =>
        simp only [runList, countPush, countSome]
        have := ih xs
        simp only [List.length_cons]
        omega

/-- Claim C10: for every sequence of push and shift operations the Deque
behaves exactly like a plain FIFO queue despite its head-index
compaction: shift outputs match the FIFO model (shift on empty returns
none), the final contents agree, the length getter equals the model
queue length (and the underlying JS subtraction a.length - h is
non-negative since h never passes the end), and the final length equals
the number of pushes minus the number of successful shifts. -/
theorem deque_refines_fifo (ops : List (QOp Nat)) :
    (runDeque Deque.empty ops).2 = (runList ([] : List Nat) ops).2 ∧
    (runDeque Deque.empty ops).1.toList = (runList ([] : List Nat) ops).1 ∧
    (runDeque Deque.empty ops).1.length = (runList ([] : List Nat) ops).1.length ∧
    (runDeque Deque.empty ops).1.h ≤ (runDeque Deque.empty ops).1.a.length ∧
    (runList ([] : List Nat) ops).1.length + countSome ((runDeque Deque.empty ops).2)
      = countPush ops ∧
    (Deque.shift (Deque.empty (T := Nat))).1 = none := by
  have hw : (Deque.empty (T := Nat)).Wf := by simp [Deque.empty, Deque.Wf]
  have hs := runDeque_sim ops Deque.empty hw
  have htl : (Deque.empty (T := Nat)).toList = [] := rfl
  rw [htl] at hs
  have hlen := runList_length ops ([] : List Nat)
  simp only [List.length_nil, Nat.zero_add] at hlen
  refine ⟨hs.1, hs.2.1, ?_, hs.2.2, ?_, rfl⟩
  · have : (runDeque Deque.empty ops).1.length
        = (runDeque Deque.empty ops).1.toList.length := by
      simp [Deque.length, Deque.toList]
    rw [this, hs.2.1]
  · rw [hs.1]; exact hlen

theorem sendNow_inFlight_gated (c : Cfg) (ok : Bool) (m : Msg) (s : PH)
    (hg : (c.winOn && nonSystem m.t) = true) :
    (sendNow c ok m s).inFlight = s.inFlight + 1 ∨
    (sendNow c ok m s).inFlight = max 0 s.inFlight := by
  simp only [sendNow, sendAttempt, sendInc, hg, if_true]
  split_ifs with h1 h2
  · left; rfl
  · left; rfl
  · right; simp

theorem sendNow_inFlight_ungated (c : Cfg) (ok : Bool) (m : Msg) (s : PH)
    (hg : (c.winOn && nonSystem m.t) = false) :
    (sendNow c ok m s).inFlight = s.inFlight := by
  simp only [sendNow, sendAttempt, sendInc, hg, if_false, Bool.false_eq_true]
  split_ifs <;> rfl

theorem schedulePump_fields (s : PH) :
    (schedulePump s).inFlight = s.inFlight ∧
    (schedulePump s).postQueue = s.postQueue ∧
    (schedulePump s).sent = s.sent ∧
    (schedulePump s).compressQueue = s.compressQueue ∧
    (schedulePump s).readyResolved = s.readyResolved ∧
    (schedulePump s).preReady = s.preReady ∧
    (schedulePump s).winfo = s.winfo := by
  unfold schedulePump
  split_ifs <;> exact ⟨rfl, rfl, rfl, rfl, rfl, rfl, rfl⟩

theorem armIfQueued_fields (s : PH) :
    (armIfQueued s).inFlight = s.inFlight ∧
    (armIfQueued s).postQueue = s.postQueue ∧
    (armIfQueued s).sent = s.sent ∧
    (armIfQueued s).compressQueue = s.compressQueue ∧
    (armIfQueued s).readyResolved = s.readyResolved ∧
    (armIfQueued s).preReady = s.preReady ∧
    (armIfQueued s).winfo = s.winfo := by
  unfold armIfQueued
  split_ifs with h1
  · exact schedulePump_fields s
  · exact ⟨rfl, rfl, rfl, rfl, rfl, rfl, rfl⟩

theorem postAfterSend_fields (c : Cfg) (s : PH) :
    (postAfterSend c s).inFlight = s.inFlight ∧
    (postAfterSend c s).postQueue = s.postQueue ∧
    (postAfterSend c s).sent = s.sent ∧
    (postAfterSend c s).compressQueue = s.compressQueue ∧
    (postAfterSend c s).readyResolved = s.readyResolved ∧
    (postAfterSend c s).preReady = s.preReady ∧
    (postAfterSend c s).winfo = s.winfo := by
  unfold postAfterSend
  split_ifs with h1
  · exact schedulePump_fields s
  · exact ⟨rfl, rfl, rfl, rfl, rfl, rfl, rfl⟩

theorem sendNow_inv (c : Cfg) (N : Nat) (ok : Bool) (m : Msg) (s : PH)
    (hinv : InvW N s)
    (hlt : (c.winOn && nonSystem m.t) = true → s.inFlight < (N : Int)) :
    InvW N (sendNow c ok m s) := by
  obtain ⟨h0, hle⟩ := hinv
  by_cases hg : (c.winOn && nonSystem m.t) = true
  · have hx := hlt hg
    rcases sendNow_inFlight_gated c ok m s hg with h | h
    · exact ⟨by rw [h]; omega, by rw [h]; omega⟩
    · refine ⟨by rw [h]; exact le_max_left _ _, ?_⟩
      rw [h]
      exact max_le (Int.natCast_nonneg N) hle
  · rw [InvW, sendNow_inFlight_ungated c ok m s (by simpa using hg)]
    exact ⟨h0, hle⟩

theorem post_inv (c : Cfg) (N : Nat) (hcap : c.winCap = N)
    (ok : Bool) (m : Msg) (s : PH) (hinv : InvW N s) :
    InvW N (post c ok m s) := by
  obtain ⟨h0, hle⟩ := hinv
  unfold post
  split_ifs with h1 h2
  · exact ⟨h0, hle⟩
  · refine ⟨?_, ?_⟩ <;> rw [(schedulePump_fields _).1]
    · exact h0
    · exact hle
  · have hs := sendNow_inv c N ok m s ⟨h0, hle⟩ (by
      intro hg
      by_contra hge
      push_neg at hge
      apply h2
      rw [hg, Bool.true_and, decide_eq_true_eq, hcap]
      exact hge)
    refine ⟨?_, ?_⟩ <;> rw [(postAfterSend_fields c _).1]
    · exact hs.1
    · exact hs.2

theorem pumpAux_inv (c : Cfg) (N : Nat) (hw : c.winOn = true) (hcap : c.winCap = N) :
    ∀ (q : List Msg) (oks : List Bool) (s : PH), InvW N s → InvW N (pumpAux c q oks s) := by
  intro q
  induction q with
  | nil => intro oks s h; exact h
  | cons m rest ih =>
    intro oks s h
    unfold pumpAux
    split_ifs with h1 h2
    · exact h
    · exact h
    · refine ih oks.tail _ (sendNow_inv c N (oks.headD true) m s h ?_)
      intro _
      rw [hw, Bool.true_and, hcap] at h1
      by_contra hge
      push_neg at hge
      simp [hge] at h1

theorem tick_inv (c : Cfg) (N : Nat) (hw : c.winOn = true) (hcap : c.winCap = N)
    (oks : List Bool) (s : PH) (hinv : InvW N s) : InvW N (tickRun c oks s) := by
  have hp := pumpAux_inv c N hw hcap s.postQueue oks s hinv
  unfold tickRun
  split_ifs with h1
  · exact hp
  · exact ⟨hp.1, hp.2⟩

theorem recv_inv (c : Cfg) (N : Nat) (ok : Bool) (t : String) (s : PH)
    (hinv : InvW N s) : InvW N (recvMsg c ok t s) := by
  obtain ⟨h0, hle⟩ := hinv
  have hN : (0 : Int) ≤ (N : Int) := Int.natCast_nonneg N
  unfold recvMsg releasePath
  split_ifs with h1 h2 h3
  · exact ⟨h0, hle⟩
  · exact ⟨h0, hle⟩
  · have hmax0 : (0 : Int) ≤ max 0 (s.inFlight - 1) := le_max_left _ _
    have hmaxN : max 0 (s.inFlight - 1) ≤ (N : Int) := max_le hN (by omega)
    refine ⟨?_, ?_⟩ <;>
      rw [(armIfQueued_fields _).1, (armIfQueued_fields _).1]
    · exact hmax0
    · exact hmaxN
  · refine ⟨?_, ?_⟩ <;> rw [(armIfQueued_fields _).1]
    · exact h0
    · exact hle

theorem replayAux_inv (c : Cfg) (N : Nat) (hcap : c.winCap = N) :
    ∀ (ms : List Msg) (oks : List Bool) (s : PH), InvW N s → InvW N (replayAux c oks ms s) := by
  intro ms
  induction ms with
  | nil => intro oks s h; exact h
  | cons m rest ih =>
    intro oks s h
    unfold replayAux
    exact ih oks.tail _ (post_inv c N hcap (oks.headD true) m s h)

theorem step_inv (c : Cfg) (N : Nat) (hw : c.winOn = true) (hcap : c.winCap = N)
    (s : PH) (e : Ev) (hinv : InvW N s) : InvW N (step c s e) := by
  cases e with
  | post m ok => exact post_inv c N hcap ok m s hinv
  | recv t ok => exact recv_inv c N ok t s hinv
  | tick oks =>
    unfold step
    split_ifs with h1
    · exact tick_inv c N hw hcap oks s hinv
    · exact hinv
  | flush => exact hinv
  | setW w => exact hinv
  | ready oks =>
    unfold step resolveReplay
    exact replayAux_inv c N hcap s.preReady oks _ hinv

theorem run_inv (c : Cfg) (N : Nat) (hw : c.winOn = true) (hcap : c.winCap = N) :
    ∀ (evs : List Ev) (s : PH), InvW N s → InvW N (run c s evs) := by
  intro evs
  induction evs with
  | nil => intro s h; exact h
  | cons e es ih => intro s h; exact ih _ (step_inv c N hw hcap s e h)

theorem pumpOnce_full (c : Cfg) (N : Nat) (hw : c.winOn = true) (hcap : c.winCap = N)
    (oks : List Bool) (s : PH) (hfull : (N : Int) ≤ s.inFlight) :
    pumpOnce c oks s = s := by
  unfold pumpOnce
  cases hq : s.postQueue with
  | nil =>
    show ({ s with postQueue := [] } : PH) = s
    rw [← hq]
  | cons m rest =>
    have hcond : (c.winOn && decide ((c.winCap : Int) ≤ s.inFlight)) = true := by
      rw [hw, hcap]
      simp [hfull]
    unfold pumpAux
    rw [if_pos hcond]
    show ({ s with postQueue := m :: rest } : PH) = s
    rw [← hq]

/-- Claim C1: with maxInFlight = N configured (N positive, hence truthy
in JS) and releaseOn given, over every event sequence from a fresh
handler the outstanding non-system send counter inFlight stays between
zero and N. A post arriving while inFlight is at or above N is appended
to the deferred-send queue with nothing reaching the transport and
inFlight unchanged; a pump tick while the window is full sends nothing
and leaves the queue intact, so a held post stays held until a
releaseOn-type message arrives; and such a message decrements inFlight
by exactly one (the floor at zero never cutting in while inFlight is
positive). -/
theorem window_bound (c : Cfg) (N : Nat) (hc : c.maxInFlight = some N) (hN : 0 < N) :
    (∀ evs : List Ev,
       0 ≤ (run c PH.init evs).inFlight ∧ (run c PH.init evs).inFlight ≤ (N : Int)) ∧
    (∀ (s : PH) (m : Msg) (ok : Bool),
       s.readyResolved = true → nonSystem m.t = true → (N : Int) ≤ s.inFlight →
       (post c ok m s).postQueue = s.postQueue ++ [m] ∧
       (post c ok m s).sent = s.sent ∧
       (post c ok m s).compressQueue = s.compressQueue ∧
       (post c ok m s).inFlight = s.inFlight) ∧
    (∀ (oks : List Bool) (s : PH), (N : Int) ≤ s.inFlight →
       (tickRun c oks s).sent = s.sent ∧
       (tickRun c oks s).compressQueue = s.compressQueue ∧
       (tickRun c oks s).postQueue = s.postQueue) ∧
    (∀ (t : String) (s : PH), c.releaseOn.contains t = true →
       t.startsWith "system_" = false → 1 ≤ s.inFlight →
       (recvMsg c true t s).inFlight = s.inFlight - 1) := by
  have hw : c.winOn = true := by simp [Cfg.winOn, hc, hN]
  have hcap : c.winCap = N := by simp [Cfg.winCap, hc]
  refine ⟨?_, ?_, ?_, ?_⟩
  · intro evs
    exact run_inv c N hw hcap evs PH.init ⟨le_refl 0, Int.natCast_nonneg N⟩
  · intro s m ok hr hns hfull
    have hcond : (c.winOn && nonSystem m.t && decide ((c.winCap : Int) ≤ s.inFlight)) = true := by
      rw [hw, hns, hcap]
      simp [hfull]
    unfold post
    simp only [hr, Bool.not_true, Bool.false_eq_true, if_false, hcond, if_true]
    exact ⟨(schedulePump_fields _).2.1, (schedulePump_fields _).2.2.1,
      (schedulePump_fields _).2.2.2.1, (schedulePump_fields _).1⟩
  · intro oks s hfull
    have hp := pumpOnce_full c N hw hcap oks s hfull
    unfold tickRun
    rw [hp]
    split_ifs with h1
    · exact ⟨rfl, rfl, rfl⟩
    · exact ⟨rfl, rfl, rfl⟩
  · intro t s hcont hns h1
    unfold recvMsg releasePath
    simp only [hns, Bool.false_eq_true, if_false, Bool.not_true, hw, hcont,
      Bool.and_self, if_true]
    rw [(armIfQueued_fields _).1, (armIfQueued_fields _).1]
    show max 0 (s.inFlight - 1) = s.inFlight - 1
    omega

/-- Witness for the window-bound theorem: the concrete configuration
cfgWin1 satisfies its hypotheses, and the bound holds on a concrete
three-post trace. -/
theorem window_bound_witness :
    cfgWin1.maxInFlight = some 1 ∧ 0 < 1 ∧
    (0 ≤ (run cfgWin1 PH.init (postsOf [⟨"a", 1⟩, ⟨"b", 2⟩, ⟨"c", 3⟩])).inFlight ∧
     (run cfgWin1 PH.init (postsOf [⟨"a", 1⟩, ⟨"b", 2⟩, ⟨"c", 3⟩])).inFlight ≤ ((1 : Nat) : Int)) :=
  ⟨rfl, by decide,
    (window_bound cfgWin1 1 rfl (by decide)).1 (postsOf [⟨"a", 1⟩, ⟨"b", 2⟩, ⟨"c", 3⟩])⟩

theorem post_plain_step (c : Cfg) (hm : c.maxInFlight = none)
    (hnc : c.compressionEnabled = false) (m : Msg) (s : PH)
    (hr : s.readyResolved = true) (hwi : s.winfo = none) :
    post c true m s = { s with sent := s.sent ++ [m] } := by
  have hwin : c.winOn = false := by simp [Cfg.winOn, hm]
  have hsn : sendNow c true m s = { s with sent := s.sent ++ [m] } := by
    unfold sendNow sendAttempt sendInc
    rw [hwin]
    simp [hnc]
  have hpres : isPressured c ({ s with sent := s.sent ++ [m] }) = false := by
    unfold isPressured
    simp [hwi]
  unfold post
  simp only [hr, Bool.not_true, Bool.false_eq_true, if_false, hwin, Bool.false_and]
  rw [hsn]
  unfold postAfterSend
  rw [if_neg (by simp [hpres])]
  simp [hr]

theorem post_zip_step (c : Cfg) (hm : c.maxInFlight = none)
    (hcz : c.compressionEnabled = true) (m : Msg) (s : PH)
    (hr : s.readyResolved = true) (hwi : s.winfo = none) :
    post c true m s = { s with compressQueue := s.compressQueue ++ [m] } := by
  have hwin : c.winOn = false := by simp [Cfg.winOn, hm]
  have hsn : sendNow c true m s = { s with compressQueue := s.compressQueue ++ [m] } := by
    unfold sendNow sendAttempt sendInc
    rw [hwin]
    simp [hcz]
  have hpres : isPressured c ({ s with compressQueue := s.compressQueue ++ [m] }) = false := by
    unfold isPressured
    simp [hwi]
  unfold post
  simp only [hr, Bool.not_true, Bool.false_eq_true, if_false, hwin, Bool.false_and]
  rw [hsn]
  unfold postAfterSend
  rw [if_neg (by simp [hpres])]
  simp [hr]

theorem run_posts_plain (c : Cfg) (hm : c.maxInFlight = none)
    (hnc : c.compressionEnabled = false) :
    ∀ (ms : List Msg) (s : PH), s.readyResolved = true → s.winfo = none →
      run c s (postsOf ms) = { s with sent := s.sent ++ ms } := by
  intro ms
  induction ms with
  | nil =>
    intro s hr hwi
    simp [postsOf, run]
  | cons m rest ih =>
    intro s hr hwi
    simp only [postsOf, List.map_cons, run, step]
    rw [post_plain_step c hm hnc m s hr hwi]
    have := ih ({ s with sent := s.sent ++ [m] }) hr hwi
    rw [postsOf] at this
    rw [this]
    simp

theorem run_posts_zip (c : Cfg) (hm : c.maxInFlight = none)
    (hcz : c.compressionEnabled = true) :
    ∀ (ms : List Msg) (s : PH), s.readyResolved = true → s.winfo = none →
      run c s (postsOf ms) = { s with compressQueue := s.compressQueue ++ ms } := by
  intro ms
  induction ms with
  | nil =>
    intro s hr hwi
    simp [postsOf, run]
  | cons m rest ih =>
    intro s hr hwi
    simp only [postsOf, List.map_cons, run, step]
    rw [post_zip_step c hm hcz m s hr hwi]
    have := ih ({ s with compressQueue := s.compressQueue ++ [m] }) hr hwi
    rw [postsOf] at this
    rw [this]
    simp

theorem runInit_flush_sent (c : Cfg) (hm : c.maxInFlight = none) (ms : List Msg) :
    (flushCompress (run c PH.init (postsOf ms))).sent = ms ∧
    (run c PH.init (postsOf ms)).postQueue = [] ∧
    (c.compressionEnabled = false → (run c PH.init (postsOf ms)).sent = ms) := by
  by_cases hcz : c.compressionEnabled = true
  · rw [run_posts_zip c hm hcz ms PH.init rfl rfl]
    refine ⟨by simp [flushCompress, PH.init], by simp [PH.init], ?_⟩
    intro hfalse
    rw [hcz] at hfalse
    exact absurd hfalse (by simp)
  · have hnc : c.compressionEnabled = false := by simpa using hcz
    rw [run_posts_plain c hm hnc ms PH.init rfl rfl]
    exact ⟨by simp [flushCompress, PH.init], by simp [PH.init], fun _ => by simp [PH.init]⟩

/-- Claim C5: with no in-flight window configured and a transport that
reports no pressure, every sequence of posts reaches the transport in
exactly call order, in both serialization-compression modes: without
compression the transport trace itself is the post sequence, and with
compression the pending compress-then-send microtasks drain to the
transport in the same order; nothing is ever left in the deferred-send
queue. -/
theorem order_preservation (c : Cfg) (hm : c.maxInFlight = none) (ms : List Msg) :
    (flushCompress (run c PH.init (postsOf ms))).sent = ms ∧
    (run c PH.init (postsOf ms)).postQueue = [] ∧
    (c.compressionEnabled = false → (run c PH.init (postsOf ms)).sent = ms) :=
  runInit_flush_sent c hm ms

/-- Witness for the order-preservation theorem at a concrete
configuration with compression enabled and a concrete two-post trace. -/
theorem order_preservation_witness :
    cfgPlainZip.maxInFlight = none ∧
    (flushCompress (run cfgPlainZip PH.init (postsOf [⟨"a", 1⟩, ⟨"b", 2⟩]))).sent
      = [⟨"a", 1⟩, ⟨"b", 2⟩] :=
  ⟨rfl, (order_preservation cfgPlainZip rfl [⟨"a", 1⟩, ⟨"b", 2⟩]).1⟩

theorem run_posts_unready (c : Cfg) :
    ∀ (ms : List Msg) (s : PH), s.readyResolved = false →
      run c s (postsOf ms) = { s with preReady := s.preReady ++ ms } := by
  intro ms
  induction ms with
  | nil =>
    intro s hr
    simp [postsOf, run]
  | cons m rest ih =>
    intro s hr
    simp only [postsOf, List.map_cons, run, step]
    have hpost : post c true m s = { s with preReady := s.preReady ++ [m] } := by
      unfold post
      simp [hr]
    rw [hpost]
    have := ih ({ s with preReady := s.preReady ++ [m] }) hr
    rw [postsOf] at this
    rw [this]
    simp

theorem replayAux_eq_run (c : Cfg) :
    ∀ (ms : List Msg) (s : PH), replayAux c [] ms s = run c s (postsOf ms) := by
  intro ms
  induction ms with
  | nil => intro s; rfl
  | cons m rest ih =>
    intro s
    simp only [replayAux, postsOf, List.map_cons, run, step, List.tail_nil, List.headD_nil]
    exact ih (post c true m s)

/-- Claim C9: posts issued before the session is ready are not dropped
and not sent: each lands in the FIFO ready.then reaction queue in issue
order, the transport sees nothing, and the deferred-send queue stays
empty; when readiness resolves the reactions re-post the messages in the
original order against the now-ready handler state, and (with no window
and an unpressured transport) the transport then receives them exactly
in that order. -/
theorem preready_replay (c : Cfg) (hm : c.maxInFlight = none) (ms : List Msg) :
    (run c PH.initUnready (postsOf ms)).preReady = ms ∧
    (run c PH.initUnready (postsOf ms)).sent = [] ∧
    (run c PH.initUnready (postsOf ms)).compressQueue = [] ∧
    (run c PH.initUnready (postsOf ms)).postQueue = [] ∧
    resolveReplay c [] (run c PH.initUnready (postsOf ms)) = run c PH.init (postsOf ms) ∧
    (flushCompress (resolveReplay c [] (run c PH.initUnready (postsOf ms)))).sent = ms := by
  have hrun := run_posts_unready c ms PH.initUnready rfl
  have hre : resolveReplay c [] (run c PH.initUnready (postsOf ms))
      = run c PH.init (postsOf ms) := by
    rw [hrun]
    unfold resolveReplay
    rw [replayAux_eq_run]
    rfl
  refine ⟨by rw [hrun]; simp [PH.initUnready], by rw [hrun]; rfl, by rw [hrun]; rfl,
    by rw [hrun]; rfl, hre, ?_⟩
  rw [hre]
  exact (runInit_flush_sent c hm ms).1

/-- Witness for the pre-readiness replay theorem at a concrete
configuration and two concrete posts. -/
theorem preready_replay_witness :
    cfgPlainZip.maxInFlight = none ∧
    (run cfgPlainZip PH.initUnready (postsOf [⟨"a", 1⟩, ⟨"b", 2⟩])).preReady
      = [⟨"a", 1⟩, ⟨"b", 2⟩] ∧
    (flushCompress (resolveReplay cfgPlainZip []
        (run cfgPlainZip PH.initUnready (postsOf [⟨"a", 1⟩, ⟨"b", 2⟩])))).sent
      = [⟨"a", 1⟩, ⟨"b", 2⟩] :=
  ⟨rfl, (preready_replay cfgPlainZip rfl [⟨"a", 1⟩, ⟨"b", 2⟩]).1,
    (preready_replay cfgPlainZip rfl [⟨"a", 1⟩, ⟨"b", 2⟩]).2.2.2.2.2⟩

/-- Claim C2 (code behavior at the failing input): with no maxInFlight
configured and the transport signalling needs-drain, post() still hands
the message to the transport immediately — nothing is deferred into the
deferred-send queue, contradicting the claimed backpressure deferral on
post. -/
theorem pressured_post_sent_immediately :
    isPressured ⟨none, [], 5242880, false⟩
        ({ PH.init with winfo := some ⟨0, true⟩ }) = true ∧
    (post ⟨none, [], 5242880, false⟩ true ⟨"msg", 0⟩
        ({ PH.init with winfo := some ⟨0, true⟩ })).sent = [⟨"msg", 0⟩] ∧
    (post ⟨none, [], 5242880, false⟩ true ⟨"msg", 0⟩
        ({ PH.init with winfo := some ⟨0, true⟩ })).postQueue = [] := by
  decide

/-- Claim C3 (code behavior at the failing input): scheduleReconnect
doubles the stored delay before scheduling with it, so with base 2000
the delays for consecutive failures are 4000, 8000, 16000, then capped
at 30000 — not 2000, 4000, 8000 — and although a successful connection
resets the stored delay to the base, the next failure still waits 4000
ms rather than 2000 ms. -/
theorem backoff_doubles_before_use :
    failDelays (RC.init 2000) 5 = [4000, 8000, 16000, 30000, 30000] ∧
    failDelays (RC.init 2000) 1 ≠ [2000] ∧
    (scheduleReconnect (onConnected ⟨2000, 16000, true, false⟩)).2 = some 4000 := by
  decide

/-- Claim C4 (code behavior at the failing input): with two handlers
registered for a type and the first throwing, process invokes only the
first handler — the rejection aborts the await loop before the second
handler runs — while a failure-free run invokes both in registration
order. -/
theorem handler_failure_stops_chain :
    processRun [(1, true), (2, false)] = ([1], true) ∧
    (2 ∈ (processRun [(1, true), (2, false)]).1 → False) ∧
    processRun [(1, false), (2, false)] = ([1, 2], false) := by
  decide

/-- Claim C6 counterexample: in JSON-fallback mode a malformed payload
makes JSON.parse throw out of emit — no listener and no handler
observes the message, but an exception does escape the decode step, so
the claimed exception-free recovery fails at this input. -/
theorem parse_error_escapes :
    (emitRun false [] ⟨"x", false⟩).dispatched = false ∧
    (emitRun false [] ⟨"x", false⟩).listenerCalled = false ∧
    ((emitRun false [] ⟨"x", false⟩).exn = false → False) := by
  decide

/-- Claim C6 (amended): an inbound message whose type has no receive
entry is silently dropped — no global listener, no per-type handler, no
exception; a malformed payload in JSON-fallback mode is likewise seen
by no listener and no handler, but its parse exception escapes emit
uncaught instead of being recovered inside the pipeline. -/
theorem inbound_drop_amended (hasS : Bool) (rts : List String) (m : InMsg)
    (h : (hasS = true ∧ rts.contains m.t = false) ∨
         (hasS = false ∧ m.wellFormed = false)) :
    (emitRun hasS rts m).listenerCalled = false ∧
    (emitRun hasS rts m).dispatched = false ∧
    ((emitRun hasS rts m).exn = true ↔ hasS = false) := by
  rcases h with ⟨h1, h2⟩ | ⟨h1, h2⟩
  · have h2m : ¬ (m.t ∈ rts) := by simpa using h2
    simp [emitRun, h1, h2m]
  · simp [emitRun, h1, h2]

/-- Witness for the amended inbound-drop theorem: a schema session
receiving an unregistered type. -/
theorem inbound_drop_amended_witness :
    ((true = true ∧ (["pong"] : List String).contains "zap" = false) ∨
     (true = false ∧ true = false)) ∧
    ((emitRun true ["pong"] ⟨"zap", true⟩).listenerCalled = false ∧
     (emitRun true ["pong"] ⟨"zap", true⟩).dispatched = false ∧
     ((emitRun true ["pong"] ⟨"zap", true⟩).exn = true ↔ true = false)) :=
  ⟨Or.inl ⟨rfl, by decide⟩,
    inbound_drop_amended true ["pong"] ⟨"zap", true⟩ (Or.inl ⟨rfl, by decide⟩)⟩

/-- Claim C7 counterexample: the claim says a synchronous send failure
aborts the current pump pass; in the code _sendNow catches the failure
itself, so the pass continues — with two queued sends and the first
failing, the second is still handed to the transport within the same
pumpOnce call and the queue is fully drained. -/
theorem pump_pass_continues_after_failure :
    (pumpOnce ⟨some 5, ["r"], 5242880, false⟩ [false, true]
        ({ PH.init with postQueue := [⟨"a", 1⟩, ⟨"b", 2⟩], pumping := true })).sent
      = [⟨"b", 2⟩] ∧
    (pumpOnce ⟨some 5, ["r"], 5242880, false⟩ [false, true]
        ({ PH.init with postQueue := [⟨"a", 1⟩, ⟨"b", 2⟩], pumping := true })).postQueue
      = [] := by
  decide

/-- Claim C7 (amended): with the window configured, a non-system send
increments inFlight before the transport.send attempt (the definitional
decomposition of _sendNow into increment and guarded attempt); a
synchronous send failure rolls the increment back, leaving inFlight
exactly its value before the call with nothing sent and the queue
untouched; and because the failure is caught inside _sendNow it aborts
nothing — a pump pass whose head send fails proceeds to the remaining
queued sends. -/
theorem sendNow_rollback (c : Cfg) (m : Msg) (s : PH)
    (hg : (c.winOn && nonSystem m.t) = true) (h0 : 0 ≤ s.inFlight)
    (hnc : c.compressionEnabled = false) :
    (∀ ok : Bool, sendNow c ok m s = sendAttempt c ok m (sendInc c m s)) ∧
    (sendInc c m s).inFlight = s.inFlight + 1 ∧
    (sendNow c false m s).inFlight = s.inFlight ∧
    (sendNow c false m s).sent = s.sent ∧
    (sendNow c false m s).postQueue = s.postQueue ∧
    (∀ (rest : List Msg) (oks : List Bool),
       (c.winOn && decide ((c.winCap : Int) ≤ s.inFlight)) = false →
       pumpAux c (m :: rest) (false :: oks) s
         = pumpAux c rest oks (sendNow c false m s)) := by
  have hw : c.winOn = true := by
    revert hg
    cases c.winOn <;> simp
  refine ⟨fun ok => rfl, ?_, ?_, ?_, ?_, ?_⟩
  · simp [sendInc, hg]
  · simp only [sendNow, sendAttempt, sendInc, hg, if_true, hnc, Bool.false_eq_true,
      if_false]
    simp
    omega
  · simp only [sendNow, sendAttempt, sendInc, hg, if_true, hnc, Bool.false_eq_true,
      if_false]
  · simp only [sendNow, sendAttempt, sendInc, hg, if_true, hnc, Bool.false_eq_true,
      if_false]
  · intro rest oks hgate
    rw [hw] at hgate
    simp only [pumpAux, hw, Bool.not_true, Bool.false_and, hgate, Bool.false_eq_true,
      if_false, List.tail_cons, List.headD_cons]

/-- Witness for the amended rollback theorem at the concrete windowed
configuration cfgWin1 and a fresh handler. -/
theorem sendNow_rollback_witness :
    (cfgWin1.winOn && nonSystem "a") = true ∧ 0 ≤ PH.init.inFlight ∧
    cfgWin1.compressionEnabled = false ∧
    (sendNow cfgWin1 false ⟨"a", 1⟩ PH.init).inFlight = PH.init.inFlight :=
  ⟨by decide, by decide, rfl,
    (sendNow_rollback cfgWin1 ⟨"a", 1⟩ PH.init (by decide) (by decide) rfl).2.2.1⟩

/-- Claim C8 counterexample: on a single-core host the Dispatcher queue
concurrency is floor(1/2) = 0, not the claimed max(1, floor(1/2)) = 1 —
there is no minimum-one clamp in the constructor. -/
theorem dispatcher_concurrency_one_core :
    dispatcherConcurrency 1 = 0 ∧ dispatcherConcurrency 1 ≠ max 1 (1 / 2) := by
  decide

/-- Claim C8 (amended): the fastq concurrency bound is exactly
floor(cores / 2) with no minimum clamp: it agrees with the claimed
formula max(1, floor(cores / 2)) for two or more cores, but is 0 when
the host reports zero or one core. -/
theorem dispatcher_concurrency_amended (cores : Nat) :
    dispatcherConcurrency cores = if cores ≤ 1 then 0 else max 1 (cores / 2) := by
  unfold dispatcherConcurrency
  split_ifs with h1
  · omega
  · rw [max_eq_right (by omega : (1 : Nat) ≤ cores / 2)]

end GrpcPipe
